import Mathlib

/-!
# Verification of the geo-owl patient placement core

Shallow embedding of the decision core of the geo-owl repository:

* `normalize_floor`, `get_geographic_teams`, `optimize_placements`
  translated from `src/geo_placer.py` (the top-level command-line copy);
* `get_patient_priority` translated from `src/code/geo_placer.py`;
* `analyze_patients` translated from `src/geo_placer_web.py`
  (identical to the copy in `src/pages/2_Monday_Shuffle.py`).

Python data is modelled as follows: strings are Lean `String`s (the
inputs of interest are ASCII, where Python `str.upper`/`str.strip`
agree with `String.toUpper`/`String.trim`); the census dictionary with
its `census.get(t, 0)` accesses is a total function `Nat → Nat`
(absent keys default to zero, counts are non-negative); the
closed-team `set` is passed as a `List Nat` and consulted only through
membership, exactly as the Python consults the set only with `in`;
Python's stable `sorted(…, key=…)` is `List.mergeSort` with the
non-strict lexicographic key comparison; `min(xs, key=f)` is `minBy`,
which returns the first element attaining the minimum, as CPython
does.  The `print(f"WARNING: …")`-and-`continue` skip branch of the
allocator is modelled by recording the skipped patient in a `skipped`
list next to the returned assignments.
-/

namespace GeoOwl

/-- Patient record, from `src/geo_placer.py` (`@dataclass Patient`).
The `floor` field is the already-normalized floor, `none` standing for
Python `None`. -/
structure Patient where
  identifier : String
  floor : Option String
  raw_location : String
deriving DecidableEq, Repr

/-- Assignment record, from `src/geo_placer.py` (`@dataclass Assignment`). -/
structure Assignment where
  patient : Patient
  team : Nat
  is_geographic : Bool
  reason : String
deriving DecidableEq, Repr

/-- Existing-roster patient, from `src/geo_placer_web.py`
(`@dataclass ExistingPatient`). -/
structure ExistingPatient where
  room : String
  current_team : Nat
  floor : Option String
deriving DecidableEq, Repr

/-- Constant `ALL_TEAMS = list(range(1, 16))` from `src/geo_placer.py`. -/
def ALL_TEAMS : List Nat := [1, 2, 3, 4, 5, 6, 7, 8, 9, 10, 11, 12, 13, 14, 15]

/-- Constant `OVERFLOW_TEAMS = [14, 15]` from `src/geo_placer.py`. -/
def OVERFLOW_TEAMS : List Nat := [14, 15]

/-- Constant `IMCU_TEAMS = [1, 2, 3]` from `src/geo_placer.py`. -/
def IMCU_TEAMS : List Nat := [1, 2, 3]

/-- Constant `IMCU_CAP = 10` from `src/geo_placer.py`. -/
def IMCU_CAP : Nat := 10

/-- Constant `SOFT_CAP = 14` from `src/geo_placer.py`. -/
def SOFT_CAP : Nat := 14

/-- Constant `MAX_NEW_BEFORE_SPREAD = 3` from `src/geo_placer.py`. -/
def MAX_NEW_BEFORE_SPREAD : Nat := 3

/-- Constant `MAX_CENSUS_GAP = 4` from `src/geo_placer.py`. -/
def MAX_CENSUS_GAP : Nat := 4

/-- The `FLOOR_TO_TEAMS` dictionary from `src/geo_placer.py`, as a partial
lookup (`none` = key absent). -/
def FLOOR_TO_TEAMS : String → Option (List Nat)
  | "3W" => some [1, 2, 3]
  | "3E" => some [1, 2, 3]
  | "4W" => some [4, 11]
  | "4E" => some [4, 11]
  | "5W" => some [5, 10]
  | "5E" => some [5, 10]
  | "6W" => some [6, 12]
  | "6E" => some [6, 12]
  | "7W" => some [7, 9]
  | "7E" => some [7, 9]
  | "8E" => some [8, 13]
  | "8W" => some [8, 13]
  | "IMCU" => some [1, 2, 3]
  | "BOYER" => some [12, 6]
  | _ => none

/-! ## String scanning helpers for `normalize_floor`

`normalize_floor` uses `re.search` with three fixed patterns.  Each is
translated into an explicit left-to-right scan over the character
list, returning what the Python code extracts from the match object.
String contents are manipulated as `List Char` (Lean's `String.trim`,
`String.toUpper` and the `String` order instances are opaque to kernel
reduction); a final label is packed back into a `String` with
`String.mk`.
-/

/-- Python `str.strip()`: drop leading and trailing whitespace. -/
def pyStrip (s : List Char) : List Char :=
  ((s.dropWhile Char.isWhitespace).reverse.dropWhile Char.isWhitespace).reverse

/-- Python `str.upper()` on the ASCII inputs this program handles. -/
def pyUpper (s : List Char) : List Char :=
  s.map Char.toUpper

/-- Python `sub in s` substring test, on character lists. -/
def hasSubstr (s sub : List Char) : Bool :=
  s.tails.any (fun t => sub.isPrefixOf t)

/-- Python `re.sub(r'[A-Z]$', '', s)`: remove a single trailing uppercase
letter (the bed suffix), if present. -/
def stripBedSuffix (s : List Char) : List Char :=
  match s.getLast? with
  | some c => if 'A' ≤ c && c ≤ 'Z' then s.dropLast else s
  | none => s

/-- Try to match `(\d+)\s*([EW]|EAST|WEST)` anchored at the head of
`s`; on success return the digit group and the first letter of the
direction group.  Since `EAST`/`WEST` begin with `E`/`W` and the code
keeps only `match.group(2)[0]`, the alternation reduces to the next
non-space character being `E` or `W`. -/
def floorDirAt (s : List Char) : Option (List Char × Char) :=
  let ds := s.takeWhile Char.isDigit
  if ds.isEmpty then none
  else
    match (s.dropWhile Char.isDigit).dropWhile Char.isWhitespace with
    | c :: _ => if c = 'E' || c = 'W' then some (ds, c) else none
    | [] => none

/-- Python `re.search(r'(\d+)\s*([EW]|EAST|WEST)', s)`: leftmost match. -/
def searchFloorDir : List Char → Option (List Char × Char)
  | [] => none
  | c :: cs =>
    match floorDirAt (c :: cs) with
    | some r => some r
    | none => searchFloorDir cs

/-- Python `\w` word character (ASCII range, which is all the inputs
use). -/
def wordChar (c : Char) : Bool :=
  c.isAlphanum || c = '_'

/-- Try to match `\b(\d)(\d{2})\b` anchored at the head of `s`, where
`prev` is the character just before `s` (`none` at the start of the
string).  Returns the floor digit and the two-digit room number. -/
def room3At (prev : Option Char) (s : List Char) : Option (Char × Nat) :=
  match s with
  | a :: b :: c :: rest =>
    if (match prev with | some p => !wordChar p | none => true)
        && a.isDigit && b.isDigit && c.isDigit
        && (match rest with | d :: _ => !wordChar d | [] => true) then
      some (a, (b.toNat - '0'.toNat) * 10 + (c.toNat - '0'.toNat))
    else none
  | _ => none

/-- Python `re.search(r'\b(\d)(\d{2})\b', s)`: leftmost match. -/
def searchRoom3 (prev : Option Char) : List Char → Option (Char × Nat)
  | [] => none
  | c :: cs =>
    match room3At prev (c :: cs) with
    | some r => some r
    | none => searchRoom3 (some c) cs

/-- Try to match `FLOOR\s*(\d+)\s*(EAST|WEST|E|W)` anchored at the
head of `s`; as in `floorDirAt`, only the first letter of the
direction survives. -/
def floorWordAt (s : List Char) : Option (List Char × Char) :=
  if ("FLOOR".toList).isPrefixOf s then
    let rest := (s.drop 5).dropWhile Char.isWhitespace
    let ds := rest.takeWhile Char.isDigit
    if ds.isEmpty then none
    else
      match (rest.dropWhile Char.isDigit).dropWhile Char.isWhitespace with
      | c :: _ => if c = 'E' || c = 'W' then some (ds, c) else none
      | [] => none
  else none

/-- Python `re.search(r'FLOOR\s*(\d+)\s*(EAST|WEST|E|W)', s)`: leftmost
match. -/
def searchFloorWord : List Char → Option (List Char × Char)
  | [] => none
  | c :: cs =>
    match floorWordAt (c :: cs) with
    | some r => some r
    | none => searchFloorWord cs

/-- Function `normalize_floor` from `src/geo_placer.py` lines 100-180:
parse a location string and extract the canonical floor label, `none`
meaning Python `None` ("can go anywhere"). -/
def normalize_floor (location : String) : Option String :=
  let s := pyUpper (pyStrip location.toList)
  if hasSubstr s "IMCU".toList then some "IMCU"
  else if hasSubstr s "OVERNIGHT".toList || hasSubstr s "ONR".toList
      || hasSubstr s "RECOVERY".toList then some "BOYER"
  else if hasSubstr s "ED".toList || hasSubstr s "EMERGENCY".toList
      || hasSubstr s "ER ".toList then none
  else if hasSubstr s "BOYER".toList then some "BOYER"
  else
    let loc := stripBedSuffix s
    match searchFloorDir loc with
    | some (ds, dir) =>
      if ds = ['9'] && dir = 'W' then some "BOYER"
      else some (String.mk ds ++ String.mk [dir])
    | none =>
      match searchRoom3 none loc with
      | some (fc, room) =>
        if fc = '7' && room ≥ 50 then some "BOYER"
        else if fc = '8' && room ≥ 50 then some "BOYER"
        else if fc = '9' then some "BOYER"
        else if 1 ≤ room && room ≤ 20 then some (String.mk [fc] ++ "W")
        else if 30 ≤ room && room < 50 then some (String.mk [fc] ++ "E")
        else some (String.mk [fc] ++ "?")
      | none =>
        match searchFloorWord loc with
        | some (ds, dir) => some (String.mk ds ++ String.mk [dir])
        | none => none

/-- Order-preserving duplicate removal, keeping first occurrences.
Models the `list(set(east_teams + west_teams))` in
`get_geographic_teams`; the properties proved below do not depend on
the (implementation-defined but deterministic) CPython set iteration
order, and for every floor in the table the East and West team lists
coincide, so the resulting set is the same. -/
def dedupKeepFirst (seen : List Nat) : List Nat → List Nat
  | [] => []
  | x :: xs =>
    if seen.contains x then dedupKeepFirst seen xs
    else x :: dedupKeepFirst (x :: seen) xs

/-- Function `get_geographic_teams` from `src/geo_placer.py` lines 183-200,
with the Python `if not floor` falsiness check covering both `None`
and the empty string. -/
def get_geographic_teams : Option String → List Nat
  | none => []
  | some f =>
    if f = "" then []
    else
      match FLOOR_TO_TEAMS f with
      | some ts => ts
      | none =>
        match f.toList.getLast? with
        | some c =>
          if c = '?' then
            let fn := String.mk f.toList.dropLast
            dedupKeepFirst []
              (((FLOOR_TO_TEAMS (fn ++ "E")).getD []) ++ ((FLOOR_TO_TEAMS (fn ++ "W")).getD []))
          else []
        | none => []

/-! ## Python list/dict primitives used by the allocator -/

/-- Python `min(xs, key=f)` on a possibly-empty list: the first
element attaining the minimal key, `none` on the empty list (where
CPython would raise). -/
def minBy (f : Nat → Nat) : List Nat → Option Nat
  | [] => none
  | t :: ts => some (ts.foldl (fun b x => if f x < f b then x else b) t)

/-- Pointwise dictionary update `d[t] = v`. -/
def upd (f : Nat → Nat) (t v : Nat) : Nat → Nat :=
  fun x => if x = t then v else f x

/-- Strict lexicographic comparison of character lists by code point:
Python's `<` on strings. -/
def lexLT : List Char → List Char → Bool
  | [], [] => false
  | [], _ :: _ => true
  | _ :: _, [] => false
  | a :: as, b :: bs =>
    if a < b then true
    else if b < a then false
    else lexLT as bs

/-- Non-strict string comparison, Python's `<=`. -/
def lexLE (a b : List Char) : Bool :=
  !lexLT b a

/-- The sort key of `src/geo_placer.py` line 233:
`(p.floor or 'ZZZ', p.identifier)` (a falsy floor — `None` or the
empty string — is replaced by `'ZZZ'`). -/
def floorKeyChars (p : Patient) : List Char :=
  match p.floor with
  | some f => if f = "" then "ZZZ".toList else f.toList
  | none => "ZZZ".toList

/-- Non-strict lexicographic comparison of the line-233 sort keys. -/
def mainKeyLE (p q : Patient) : Bool :=
  if lexLT (floorKeyChars p) (floorKeyChars q) then true
  else if lexLT (floorKeyChars q) (floorKeyChars p) then false
  else lexLE p.identifier.toList q.identifier.toList

/-- Line `patients_sorted = sorted(patients, key=lambda p: (p.floor or 'ZZZ',
p.identifier))` from `src/geo_placer.py` line 233 (Python's sort and
insertion sort by a non-strict total key comparison are both stable,
so they produce the same list). -/
def sortPatients (ps : List Patient) : List Patient :=
  List.insertionSort (fun p q => mainKeyLE p q = true) ps

/-! ## The placement allocator of `src/geo_placer.py`

`optimize_placements` is a fold of a per-patient step over the sorted
patient list.  The step body (lines 235-375) is split into named
pieces so that theorems can speak about them; each piece carries the
line numbers of the Python it translates.  The closed-team set enters
only through its membership predicate. -/

/-- List `open_teams = [t for t in ALL_TEAMS if t not in closed_teams]`
(line 229). -/
def openTeams (closed : Nat → Bool) : List Nat :=
  ALL_TEAMS.filter (fun t => !closed t)

/-- List `regular_open_teams = [t for t in open_teams if t not in
OVERFLOW_TEAMS]` (line 230). -/
def regularOpenTeams (closed : Nat → Bool) : List Nat :=
  (openTeams closed).filter (fun t => !OVERFLOW_TEAMS.contains t)

/-- List `non_imcu_regular = [t for t in regular_open_teams if t not in
IMCU_TEAMS]` (lines 279 and 330). -/
def nonImcuRegular (closed : Nat → Bool) : List Nat :=
  (regularOpenTeams closed).filter (fun t => !IMCU_TEAMS.contains t)

/-- List `non_imcu_overflow = [t for t in OVERFLOW_TEAMS if t in open_teams
and t not in IMCU_TEAMS]` (line 331). -/
def nonImcuOverflow (closed : Nat → Bool) : List Nat :=
  OVERFLOW_TEAMS.filter (fun t => (openTeams closed).contains t && !IMCU_TEAMS.contains t)

/-- Lines 236-238: the geographic candidates of a patient with the
closed teams removed (`get_geographic_teams` already returns `[]` for
a falsy floor, so the `if patient.floor else []` guard is absorbed). -/
def geoTeamsOf (closed : Nat → Bool) (p : Patient) : List Nat :=
  (get_geographic_teams p.floor).filter (fun t => !closed t)

/-- Lines 253-257: `others_under_cap`. -/
def othersUnderCap (census : Nat → Nat) (geo : List Nat) (t : Nat) : Bool :=
  geo.any (fun o =>
    (o != t) && decide (census o < SOFT_CAP)
      && (!IMCU_TEAMS.contains o || decide (census o < IMCU_CAP)))

/-- Lines 262-267: `others_have_less`. -/
def othersHaveLess (census newAsg : Nat → Nat) (geo : List Nat) (t : Nat) : Bool :=
  geo.any (fun o =>
    (o != t) && decide (newAsg o < newAsg t)
      && (!IMCU_TEAMS.contains o || decide (census o < IMCU_CAP))
      && decide (census o < SOFT_CAP))

/-- Lines 246-270: the three `continue` filters deciding whether a
geographic candidate team stays valid. -/
def validGeoPred (census newAsg : Nat → Nat) (geo : List Nat) (t : Nat) : Bool :=
  if IMCU_TEAMS.contains t && decide (census t ≥ IMCU_CAP) then false
  else if !IMCU_TEAMS.contains t && decide (census t ≥ SOFT_CAP)
      && othersUnderCap census geo t then false
  else if decide (newAsg t ≥ MAX_NEW_BEFORE_SPREAD)
      && othersHaveLess census newAsg geo t then false
  else true

/-- List `valid_geo_teams` (lines 245-270). -/
def validGeoTeams (closed : Nat → Bool) (census newAsg : Nat → Nat) (p : Patient) : List Nat :=
  (geoTeamsOf closed p).filter (validGeoPred census newAsg (geoTeamsOf closed p))

/-- Value `patient.floor` as interpolated into the f-string rationale
messages (Python renders `None` as the text `None`; in every branch
that interpolates it the floor is in fact truthy). -/
def floorStr (p : Patient) : String :=
  match p.floor with
  | some f => f
  | none => "None"

/-- Rationale of line 292/296: `f"Geographic ({floor} → Med {team})"`. -/
def geoReason (f : String) (t : Nat) : String :=
  "Geographic (" ++ f ++ " → Med " ++ toString t ++ ")"

/-- Rationale of line 288. -/
def balanceOverrideReason (f : String) (bg bgc lc lcc : Nat) : String :=
  "Balance override (" ++ f ++ "→Med " ++ toString bg ++ " would be "
    ++ toString (bgc + 1) ++ ", Med " ++ toString lc ++ " only " ++ toString lcc ++ ")"

/-- Rationale of line 317. -/
def geoFullReason (f : String) (t : Nat) : String :=
  "Balance override (" ++ f ++ " geo full, Med " ++ toString t ++ " lower census)"

/-- Rationale of line 321. -/
def overSoftCapReason (f : String) (t : Nat) : String :=
  "Geographic (over soft cap, " ++ f ++ " → Med " ++ toString t ++ ")"

/-- Rationale of line 325. -/
def equityOverrideReason (f : String) (t : Nat) : String :=
  "Geographic (equity override, " ++ f ++ " → Med " ++ toString t ++ ")"

/-- Rationales of lines 359-364 (fallback branch). -/
def fallbackReason (p : Patient) : String :=
  match p.floor with
  | some f =>
    if f = "BOYER" then "Boyer overflow (Med 12 full), lowest census"
    else if f = "" then "No floor specified, lowest census"
    else "No geographic capacity for " ++ f ++ ", lowest census"
  | none => "No floor specified, lowest census"

/-- Lines 327-356: the `best_team is None` fallback cascade.  Returns
`none` exactly on the `WARNING: No open teams` skip branch. -/
def fallbackTeam (closed : Nat → Bool) (census : Nat → Nat) : Option Nat :=
  let nir := nonImcuRegular closed
  let nio := nonImcuOverflow closed
  let regularUnderCap := nir.filter (fun t => decide (census t < SOFT_CAP))
  match minBy census regularUnderCap with
  | some t => some t
  | none =>
    if !nio.isEmpty then
      let overflowUnderCap := nio.filter (fun t => decide (census t < SOFT_CAP))
      match minBy census overflowUnderCap with
      | some t => some t
      | none =>
        match minBy census nir with
        | some t => some t
        | none => minBy census nio
    else
      match minBy census nir with
      | some t => some t
      | none => minBy census (openTeams closed)

/-- Lines 243-325: the `if geo_teams:` phase of the loop body — the
valid-candidate selection with the balance override, and the
`elif geo_teams:` over-capacity comparison.  Returns `none` when this
phase leaves `best_team` as `None`. -/
def geoPhase (closed : Nat → Bool) (census newAsg : Nat → Nat) (p : Patient) :
    Option (Nat × Bool × String) :=
  let geoTeams := geoTeamsOf closed p
  if geoTeams.isEmpty then none
  else
    let valid := validGeoTeams closed census newAsg p
    match minBy census valid with
    | some bg =>
      let bgc := census bg
      match minBy census (nonImcuRegular closed) with
      | some lc =>
        let lcc := census lc
        if decide (bgc ≥ lcc + MAX_CENSUS_GAP) && !valid.contains lc then
          some (lc, false, balanceOverrideReason (floorStr p) bg bgc lc lcc)
        else some (bg, true, geoReason (floorStr p) bg)
      | none => some (bg, true, geoReason (floorStr p) bg)
    | none =>
      let availableGeo := geoTeams.filter
        (fun t => !IMCU_TEAMS.contains t || decide (census t < IMCU_CAP))
      match minBy census availableGeo with
      | some bgeo =>
        let nonImcuNonGeo := (regularOpenTeams closed).filter
          (fun t => !IMCU_TEAMS.contains t && !geoTeams.contains t)
        match minBy census nonImcuNonGeo with
        | some bng =>
          if decide (census bgeo ≥ census bng + 3) then
            some (bng, false, geoFullReason (floorStr p) bng)
          else some (bgeo, true, overSoftCapReason (floorStr p) bgeo)
        | none => some (bgeo, true, equityOverrideReason (floorStr p) bgeo)
      | none => none

/-- Lines 235-364: the whole per-patient decision — which team, the
geographic flag and the rationale — or `none` for the skip branch. -/
def chooseTeam (closed : Nat → Bool) (census newAsg : Nat → Nat) (p : Patient) :
    Option (Nat × Bool × String) :=
  match geoPhase closed census newAsg p with
  | some r => some r
  | none =>
    match fallbackTeam closed census with
    | some bt => some (bt, false, fallbackReason p)
    | none => none

/-- Allocator state: the accumulated assignment list, the running
census and per-team new-assignment counters, and the patients skipped
by the `WARNING` branch. -/
structure AllocResult where
  assignments : List Assignment
  census : Nat → Nat
  newAsg : Nat → Nat
  skipped : List Patient

/-- Lines 366-375: commit one patient's decision into the state. -/
def placeStep (closed : Nat → Bool) (st : AllocResult) (p : Patient) : AllocResult :=
  match chooseTeam closed st.census st.newAsg p with
  | some (bt, g, r) =>
    { assignments := st.assignments ++ [⟨p, bt, g, r⟩]
      census := upd st.census bt (st.census bt + 1)
      newAsg := upd st.newAsg bt (st.newAsg bt + 1)
      skipped := st.skipped }
  | none => { st with skipped := st.skipped ++ [p] }

/-- Function `optimize_placements` parameterized by the closed-team membership
predicate (the only way the Python reads the `closed_teams` set). -/
def optimize_placementsAux (closed : Nat → Bool) (patients : List Patient)
    (census0 : Nat → Nat) : AllocResult :=
  (sortPatients patients).foldl (placeStep closed) ⟨[], census0, fun _ => 0, []⟩

/-- Function `optimize_placements` from `src/geo_placer.py` lines 207-377. -/
def optimize_placements (patients : List Patient) (census0 : Nat → Nat)
    (closed_teams : List Nat) : AllocResult :=
  optimize_placementsAux (fun t => closed_teams.contains t) patients census0

/-! ## The redistribution analyzer -/

/-- The `get_geographic_teams(patient.floor) if patient.floor else []`
guard in `analyze_patients` (`src/geo_placer_web.py` line 412). -/
def geoOfExisting (p : ExistingPatient) : List Nat :=
  match p.floor with
  | none => []
  | some f => if f = "" then [] else get_geographic_teams (some f)

/-- Function `analyze_patients` from `src/geo_placer_web.py` lines 403-422; the
copy in `src/pages/2_Monday_Shuffle.py` lines 107-128 is line-for-line
identical.  (The web module's `FLOOR_TO_TEAMS` differs from the table
embedded above only in its `8E`/`8W` entry; no theorem below depends
on any entry of the table.)  Returns `(wrong_team, ok_team)`. -/
def analyze_patients (patients : List ExistingPatient) (closed_teams : List Nat) :
    List (ExistingPatient × List Nat) × List ExistingPatient :=
  match patients with
  | [] => ([], [])
  | p :: ps =>
    let acceptable := (geoOfExisting p).filter (fun t => !closed_teams.contains t)
    let rest := analyze_patients ps closed_teams
    if acceptable.contains p.current_team then (rest.1, p :: rest.2)
    else if !acceptable.isEmpty then ((p, acceptable) :: rest.1, rest.2)
    else ((p, []) :: rest.1, rest.2)

/-! ## The priority ordering of the `src/code` allocator variant -/

/-- Function `get_patient_priority` from `src/code/geo_placer.py` lines
211-235: the sort key tuple (band, floor label, identifier); band 0
for `3W`/`IMCU` floors, band 1 for outliers (falsy floor or no
geographic teams, floor key `'ZZZ'` for a falsy floor), band 2 for all
remaining geographic floors. -/
def get_patient_priority (p : Patient) : Nat × String × String :=
  match p.floor with
  | none => (1, "ZZZ", p.identifier)
  | some f =>
    if f = "" then (1, "ZZZ", p.identifier)
    else if (get_geographic_teams (some f)).isEmpty then (1, f, p.identifier)
    else if f = "3W" || f = "IMCU" then (0, f, p.identifier)
    else (2, f, p.identifier)

/-- Non-strict lexicographic comparison of (string, string) pairs,
the tail of Python's comparison of the priority tuples. -/
def strPairLE (a b : List Char × List Char) : Bool :=
  if lexLT a.1 b.1 then true
  else if lexLT b.1 a.1 then false
  else !lexLT b.2 a.2

/-- Python's `<=` on the priority tuples `(band, floor, identifier)`:
lexicographic with numeric first component. -/
def prioLE (a b : Nat × String × String) : Bool :=
  if a.1 < b.1 then true
  else if b.1 < a.1 then false
  else strPairLE (a.2.1.toList, a.2.2.toList) (b.2.1.toList, b.2.2.toList)

/-- Line `patients_sorted = sorted(patients, key=get_patient_priority)`
from `src/code/geo_placer.py` line 271. -/
def sortPatientsByPriority (ps : List Patient) : List Patient :=
  List.insertionSort
    (fun p q => prioLE (get_patient_priority p) (get_patient_priority q) = true) ps

/-- The priority band described by the spec's ordering sentence: 0 for
patients whose normalized floor is `"3W"` or `"IMCU"`, 1 for patients
with no determinable floor (`None`, empty, or a floor that maps to no
geographic team), 2 for all remaining geographic patients. -/
def claimBand (p : Patient) : Nat :=
  if p.floor = some "3W" ∨ p.floor = some "IMCU" then 0
  else if (match p.floor with
      | none => true
      | some f => decide (f = "") || (get_geographic_teams (some f)).isEmpty) then 1
  else 2

/-! ## Basic lemmas about `minBy` and the candidate lists -/

theorem foldlMin_mem (f : Nat → Nat) :
    ∀ (ts : List Nat) (acc : Nat),
      ts.foldl (fun b x => if f x < f b then x else b) acc ∈ acc :: ts := by
  intro ts
  induction ts with
  | nil => intro acc; simp [List.foldl]
  | cons x xs ih =>
    intro acc
    simp only [List.foldl]
    by_cases hx : f x < f acc
    · rw [if_pos hx]
      rcases List.mem_cons.mp (ih x) with h | h
      · simp [h]
      · simp [h]
    · rw [if_neg hx]
      rcases List.mem_cons.mp (ih acc) with h | h
      · simp [h]
      · simp [h]

theorem foldlMin_le (f : Nat → Nat) :
    ∀ (ts : List Nat) (acc : Nat),
      f (ts.foldl (fun b x => if f x < f b then x else b) acc) ≤ f acc ∧
        ∀ x ∈ ts, f (ts.foldl (fun b x => if f x < f b then x else b) acc) ≤ f x := by
  intro ts
  induction ts with
  | nil => intro acc; simp [List.foldl]
  | cons x xs ih =>
    intro acc
    simp only [List.foldl]
    obtain ⟨h1, h2⟩ := ih (if f x < f acc then x else acc)
    by_cases hx : f x < f acc
    · simp only [hx, if_pos] at h1 h2 ⊢
      exact ⟨le_trans h1 (le_of_lt hx), by
        intro y hy
        rcases List.mem_cons.mp hy with rfl | hy
        · exact h1
        · exact h2 y hy⟩
    · simp only [hx, if_neg, if_false] at h1 h2 ⊢
      exact ⟨h1, by
        intro y hy
        rcases List.mem_cons.mp hy with rfl | hy
        · exact le_trans h1 (le_of_not_lt hx)
        · exact h2 y hy⟩

theorem minBy_mem {f : Nat → Nat} {l : List Nat} {m : Nat} (h : minBy f l = some m) :
    m ∈ l := by
  cases l with
  | nil => simp [minBy] at h
  | cons t ts =>
    simp only [minBy, Option.some.injEq] at h
    subst h
    exact foldlMin_mem f ts t

theorem minBy_le {f : Nat → Nat} {l : List Nat} {m : Nat} (h : minBy f l = some m) :
    ∀ x ∈ l, f m ≤ f x := by
  cases l with
  | nil => simp [minBy] at h
  | cons t ts =>
    simp only [minBy, Option.some.injEq] at h
    subst h
    intro x hx
    rcases List.mem_cons.mp hx with rfl | hx
    · exact (foldlMin_le f ts x).1
    · exact (foldlMin_le f ts t).2 x hx

theorem minBy_eq_none {f : Nat → Nat} {l : List Nat} (h : minBy f l = none) : l = [] := by
  cases l with
  | nil => rfl
  | cons t ts => simp [minBy] at h

theorem mem_openTeams {closed : Nat → Bool} {t : Nat} (h : t ∈ openTeams closed) :
    closed t = false := by
  have := (List.mem_filter.mp h).2
  simpa using this

theorem mem_regularOpenTeams {closed : Nat → Bool} {t : Nat} (h : t ∈ regularOpenTeams closed) :
    closed t = false :=
  mem_openTeams (List.mem_filter.mp h).1

theorem mem_nonImcuRegular {closed : Nat → Bool} {t : Nat} (h : t ∈ nonImcuRegular closed) :
    closed t = false ∧ IMCU_TEAMS.contains t = false := by
  obtain ⟨h1, h2⟩ := List.mem_filter.mp h
  exact ⟨mem_regularOpenTeams h1, by simpa using h2⟩

theorem mem_nonImcuOverflow {closed : Nat → Bool} {t : Nat} (h : t ∈ nonImcuOverflow closed) :
    closed t = false ∧ IMCU_TEAMS.contains t = false := by
  obtain ⟨_, h2⟩ := List.mem_filter.mp h
  simp only [Bool.and_eq_true, Bool.not_eq_true'] at h2
  constructor
  · exact mem_openTeams (by simpa using h2.1)
  · exact h2.2

theorem mem_geoTeamsOf {closed : Nat → Bool} {p : Patient} {t : Nat}
    (h : t ∈ geoTeamsOf closed p) : closed t = false := by
  have := (List.mem_filter.mp h).2
  simpa using this

theorem mem_validGeoTeams {closed : Nat → Bool} {census newAsg : Nat → Nat} {p : Patient}
    {t : Nat} (h : t ∈ validGeoTeams closed census newAsg p) :
    closed t = false ∧ (IMCU_TEAMS.contains t = true → census t < IMCU_CAP) := by
  obtain ⟨h1, h2⟩ := List.mem_filter.mp h
  refine ⟨mem_geoTeamsOf h1, ?_⟩
  intro himcu
  by_contra hge
  have hge' : census t ≥ IMCU_CAP := le_of_not_lt hge
  simp [validGeoPred, hge'] at h2
  exact h2.1 (by simpa using himcu)

/-! ## Branch analysis of the per-patient decision -/

theorem fallbackTeam_some_spec {closed : Nat → Bool} {census : Nat → Nat} {t : Nat}
    (h : fallbackTeam closed census = some t) :
    (t ∈ nonImcuRegular closed ∨ t ∈ nonImcuOverflow closed) ∨
      (nonImcuRegular closed = [] ∧ nonImcuOverflow closed = [] ∧ t ∈ openTeams closed) := by
  simp only [fallbackTeam] at h
  split at h
  · rename_i t1 heq
    cases h
    exact Or.inl (Or.inl (List.mem_of_mem_filter (minBy_mem heq)))
  · rename_i heq0
    split at h
    · split at h
      · rename_i t1 heq
        cases h
        exact Or.inl (Or.inr (List.mem_of_mem_filter (minBy_mem heq)))
      · split at h
        · rename_i t1 heq
          cases h
          exact Or.inl (Or.inl (minBy_mem heq))
        · exact Or.inl (Or.inr (minBy_mem h))
    · rename_i hnio
      split at h
      · rename_i t1 heq
        cases h
        exact Or.inl (Or.inl (minBy_mem heq))
      · rename_i heq
        refine Or.inr ⟨minBy_eq_none heq, ?_, minBy_mem h⟩
        simpa using hnio

theorem fallbackTeam_none_spec {closed : Nat → Bool} {census : Nat → Nat}
    (h : fallbackTeam closed census = none) : openTeams closed = [] := by
  simp only [fallbackTeam] at h
  split at h
  · cases h
  · split at h
    · rename_i hnio
      split at h
      · cases h
      · split at h
        · cases h
        · have := minBy_eq_none h
          simp [this] at hnio
    · split at h
      · cases h
      · exact minBy_eq_none h

theorem geoPhase_some_spec {closed : Nat → Bool} {census newAsg : Nat → Nat} {p : Patient}
    {bt : Nat} {g : Bool} {r : String}
    (h : geoPhase closed census newAsg p = some (bt, g, r)) :
    closed bt = false ∧ (IMCU_TEAMS.contains bt = true → census bt < IMCU_CAP) := by
  simp only [geoPhase] at h
  split at h
  · cases h
  · split at h
    · rename_i bg heqbg
      split at h
      · rename_i lc heqlc
        split at h
        · cases h
          have hmem := minBy_mem heqlc
          have hspec := mem_nonImcuRegular hmem
          exact ⟨hspec.1, fun himcu => absurd himcu (by simpa using hspec.2)⟩
        · cases h
          exact mem_validGeoTeams (minBy_mem heqbg)
      · cases h
        exact mem_validGeoTeams (minBy_mem heqbg)
    · split at h
      · rename_i bgeo heqbgeo
        have hmem := minBy_mem heqbgeo
        have hgeo : bgeo ∈ geoTeamsOf closed p := List.mem_of_mem_filter hmem
        have hpred := (List.mem_filter.mp hmem).2
        have hbgeo : closed bgeo = false ∧
            (IMCU_TEAMS.contains bgeo = true → census bgeo < IMCU_CAP) := by
          refine ⟨mem_geoTeamsOf hgeo, fun himcu => ?_⟩
          simp only [himcu, Bool.not_true, Bool.false_or, decide_eq_true_eq] at hpred
          exact hpred
        split at h
        · rename_i bng heqbng
          split at h
          · cases h
            have hmem2 := minBy_mem heqbng
            have h1 := List.mem_of_mem_filter hmem2
            have h2 := (List.mem_filter.mp hmem2).2
            simp only [Bool.and_eq_true, Bool.not_eq_true'] at h2
            exact ⟨mem_regularOpenTeams h1, fun himcu => absurd himcu (by simpa using h2.1)⟩
          · cases h
            exact hbgeo
        · cases h
          exact hbgeo
      · cases h

theorem chooseTeam_some_spec {closed : Nat → Bool} {census newAsg : Nat → Nat} {p : Patient}
    {bt : Nat} {g : Bool} {r : String}
    (h : chooseTeam closed census newAsg p = some (bt, g, r)) :
    closed bt = false ∧
      (IMCU_TEAMS.contains bt = true →
        census bt < IMCU_CAP ∨ (nonImcuRegular closed = [] ∧ nonImcuOverflow closed = [])) := by
  simp only [chooseTeam] at h
  split at h
  · rename_i res heq
    cases h
    obtain ⟨h1, h2⟩ := geoPhase_some_spec heq
    exact ⟨h1, fun himcu => Or.inl (h2 himcu)⟩
  · split at h
    · rename_i t1 heq
      cases h
      rcases fallbackTeam_some_spec heq with (hm | hm) | ⟨h1, h2, h3⟩
      · obtain ⟨hc, hi⟩ := mem_nonImcuRegular hm
        exact ⟨hc, fun himcu => absurd himcu (by simpa using hi)⟩
      · obtain ⟨hc, hi⟩ := mem_nonImcuOverflow hm
        exact ⟨hc, fun himcu => absurd himcu (by simpa using hi)⟩
      · exact ⟨mem_openTeams h3, fun _ => Or.inr ⟨h1, h2⟩⟩
    · cases h

theorem chooseTeam_none_spec {closed : Nat → Bool} {census newAsg : Nat → Nat} {p : Patient}
    (h : chooseTeam closed census newAsg p = none) : openTeams closed = [] := by
  simp only [chooseTeam] at h
  split at h
  · cases h
  · split at h
    · cases h
    · exact fallbackTeam_none_spec (by assumption)

/-! ## Invariants of the allocation fold -/

theorem contains_eq_true_of_mem {l : List Nat} {t : Nat} (h : t ∈ l) :
    l.contains t = true := by
  simpa using h

theorem contains_eq_false_of_not_mem {l : List Nat} {t : Nat} (h : t ∉ l) :
    l.contains t = false := by
  simpa using h

theorem placeStep_census_count (closed : Nat → Bool) (st : AllocResult) (p : Patient) (t : Nat) :
    (placeStep closed st p).census t + st.assignments.countP (fun a => a.team == t) =
      st.census t + (placeStep closed st p).assignments.countP (fun a => a.team == t) := by
  simp only [placeStep]
  split
  · rename_i bt g r heq
    simp only [List.countP_append, upd]
    by_cases hbt : t = bt
    · subst hbt
      simp [List.countP_cons]
      omega
    · rw [if_neg hbt]
      have hne : (bt == t) = false := by
        simp only [beq_eq_false_iff_ne, ne_eq]
        exact fun h => hbt h.symm
      simp [List.countP_cons, hne]
  · simp

theorem foldl_census_count (closed : Nat → Bool) (t : Nat) :
    ∀ (l : List Patient) (st : AllocResult),
      (l.foldl (placeStep closed) st).census t +
          st.assignments.countP (fun a => a.team == t) =
        st.census t +
          (l.foldl (placeStep closed) st).assignments.countP (fun a => a.team == t) := by
  intro l
  induction l with
  | nil => intro st; simp
  | cons p ps ih =>
    intro st
    simp only [List.foldl]
    have hkey := placeStep_census_count closed st p t
    have hind := ih (placeStep closed st p)
    omega

theorem foldl_census_imcu_bound (closed : Nat → Bool) (c0 : Nat → Nat)
    (hopen : nonImcuRegular closed ≠ [] ∨ nonImcuOverflow closed ≠ []) :
    ∀ (l : List Patient) (st : AllocResult),
      (∀ t, IMCU_TEAMS.contains t = true → st.census t ≤ max (c0 t) IMCU_CAP) →
      ∀ t, IMCU_TEAMS.contains t = true →
        (l.foldl (placeStep closed) st).census t ≤ max (c0 t) IMCU_CAP := by
  intro l
  induction l with
  | nil => intro st hst; exact hst
  | cons p ps ih =>
    intro st hst
    simp only [List.foldl]
    apply ih
    intro t ht
    simp only [placeStep]
    split
    · rename_i bt g r heq
      simp only [upd]
      by_cases hbt : t = bt
      · subst hbt
        rw [if_pos rfl]
        obtain ⟨_, h2⟩ := chooseTeam_some_spec heq
        rcases h2 ht with hlt | ⟨hreg, hovf⟩
        · exact le_trans hlt (le_max_right _ _)
        · rcases hopen with hne | hne
          · exact absurd hreg hne
          · exact absurd hovf hne
      · rw [if_neg hbt]
        exact hst t ht
    · exact hst t ht

theorem foldl_assignments_not_closed (closed : Nat → Bool) :
    ∀ (l : List Patient) (st : AllocResult),
      (∀ a ∈ st.assignments, closed a.team = false) →
      ∀ a ∈ (l.foldl (placeStep closed) st).assignments, closed a.team = false := by
  intro l
  induction l with
  | nil => intro st hst; exact hst
  | cons p ps ih =>
    intro st hst
    simp only [List.foldl]
    apply ih
    intro a ha
    simp only [placeStep] at ha
    revert ha
    split
    · rename_i bt g r heq
      intro ha
      rcases List.mem_append.mp ha with ha | ha
      · exact hst a ha
      · rcases List.mem_singleton.mp ha with rfl
        exact (chooseTeam_some_spec heq).1
    · intro ha
      exact hst a ha

theorem foldl_patients_perm (closed : Nat → Bool) :
    ∀ (l : List Patient) (st : AllocResult),
      ((l.foldl (placeStep closed) st).assignments.map (fun a => a.patient) ++
          (l.foldl (placeStep closed) st).skipped).Perm
        ((st.assignments.map (fun a => a.patient) ++ st.skipped) ++ l) := by
  intro l
  induction l with
  | nil => intro st; simp
  | cons p ps ih =>
    intro st
    simp only [List.foldl]
    refine (ih (placeStep closed st p)).trans ?_
    have hstep : ((placeStep closed st p).assignments.map (fun a => a.patient) ++
        (placeStep closed st p).skipped).Perm
          ((st.assignments.map (fun a => a.patient) ++ st.skipped) ++ [p]) := by
      simp only [placeStep]
      split
      · rename_i bt g r heq
        simp only [List.map_append, List.map_cons, List.map_nil, List.append_assoc]
        exact List.Perm.append_left _ List.perm_append_comm
      · simp [List.append_assoc]
    refine (List.Perm.append_right ps hstep).trans ?_
    rw [List.append_assoc]
    simp

theorem foldl_no_skip (closed : Nat → Bool) (hopen : openTeams closed ≠ []) :
    ∀ (l : List Patient) (st : AllocResult),
      (l.foldl (placeStep closed) st).skipped = st.skipped := by
  intro l
  induction l with
  | nil => intro st; rfl
  | cons p ps ih =>
    intro st
    simp only [List.foldl]
    rw [ih]
    simp only [placeStep]
    split
    · rfl
    · rename_i heq
      exact absurd (chooseTeam_none_spec heq) hopen

/-! ## Claim theorems: C1-C4 -/

theorem open_nonImcu_of_exists {closed_teams : List Nat}
    (h : ∃ t, t ∈ ALL_TEAMS ∧ t ∉ closed_teams ∧ t ∉ IMCU_TEAMS) :
    nonImcuRegular (fun t => closed_teams.contains t) ≠ [] ∨
      nonImcuOverflow (fun t => closed_teams.contains t) ≠ [] := by
  obtain ⟨u, hall, hnc, hni⟩ := h
  have hopen : u ∈ openTeams (fun t => closed_teams.contains t) :=
    List.mem_filter.mpr ⟨hall, by show (!closed_teams.contains _) = true; rw [contains_eq_false_of_not_mem hnc]; rfl⟩
  by_cases hov : u ∈ OVERFLOW_TEAMS
  · refine Or.inr (List.ne_nil_of_mem (a := u) ?_)
    refine List.mem_filter.mpr ⟨hov, ?_⟩
    rw [contains_eq_true_of_mem hopen, contains_eq_false_of_not_mem hni]
    rfl
  · refine Or.inl (List.ne_nil_of_mem (a := u) ?_)
    refine List.mem_filter.mpr ⟨List.mem_filter.mpr ⟨hopen, ?_⟩, ?_⟩
    · rw [contains_eq_false_of_not_mem hov]; rfl
    · rw [contains_eq_false_of_not_mem hni]; rfl

/-- C1 (counterexample): the claim "for every patient list,
non-negative starting census and closed-team set, no IMCU team's
final census (start + assignments received) exceeds 10" is false: with
every non-IMCU team (4-15) closed and teams 1-3 at the hard cap of 10,
a floorless patient reaches the `elif open_teams:` last-resort branch
of `optimize_placements`, which ignores the IMCU cap — team 1's final
census becomes 11. -/
theorem imcu_cap_counterexample :
    ¬ ((fun t => if t ≤ 3 then (10 : Nat) else 0) 1 +
        (optimize_placements [⟨"Pt1", none, "ED"⟩] (fun t => if t ≤ 3 then 10 else 0)
            [4, 5, 6, 7, 8, 9, 10, 11, 12, 13, 14, 15]).assignments.countP
          (fun a => a.team == 1) ≤ IMCU_CAP) := by
  decide

/-- C1 (amended): whenever at least one non-IMCU team (4-15) is open,
each IMCU team's final census — its starting census plus the
assignments `optimize_placements` gives it — never exceeds
`max (starting census) IMCU_CAP`; in particular it never exceeds the
hard cap of 10 when the team starts at or below 10.  (Without an open
non-IMCU team the last-resort fallback ignores the cap, and a starting
census above 10 already exceeds 10 by itself.) -/
theorem imcu_final_census_bound (ps : List Patient) (c0 : Nat → Nat) (closed_teams : List Nat)
    (hopen : ∃ t, t ∈ ALL_TEAMS ∧ t ∉ closed_teams ∧ t ∉ IMCU_TEAMS) :
    ∀ t ∈ IMCU_TEAMS,
      c0 t + (optimize_placements ps c0 closed_teams).assignments.countP
          (fun a => a.team == t) ≤ max (c0 t) IMCU_CAP := by
  intro t ht
  have hc : IMCU_TEAMS.contains t = true := contains_eq_true_of_mem ht
  have hbound := foldl_census_imcu_bound (fun t => closed_teams.contains t) c0
    (open_nonImcu_of_exists hopen) (sortPatients ps) ⟨[], c0, fun _ => 0, []⟩
    (fun t _ => le_max_left _ _) t hc
  have hcount := foldl_census_count (fun t => closed_teams.contains t) t (sortPatients ps)
    ⟨[], c0, fun _ => 0, []⟩
  simp only [List.countP_nil] at hcount
  simp only [optimize_placements, optimize_placementsAux]
  omega

/-- Witness for C1 (amended) at a concrete input: one IMCU-floor
patient, an all-zero census and no closed teams; instantiated at
IMCU team 1. -/
theorem imcu_final_census_bound_witness :
    (fun _ => (0 : Nat)) 1 +
        (optimize_placements [⟨"Pt1", some "IMCU", "IMCU"⟩] (fun _ => 0) []).assignments.countP
          (fun a => a.team == 1) ≤ max ((fun _ => (0 : Nat)) 1) IMCU_CAP :=
  imcu_final_census_bound [⟨"Pt1", some "IMCU", "IMCU"⟩] (fun _ => 0) []
    ⟨4, by decide, by decide, by decide⟩ 1 (by decide)

/-- C2 (counterexample): the claim that with team 5 closed a `"5E"`
patient is assigned to team 10 "regardless of census values" is false:
with team 10 at census 4 and every other team empty, the balance
override (census gap ≥ `MAX_CENSUS_GAP`) diverts the patient to
team 4, not team 10. -/
theorem closed_exclusion_counterexample :
    ((optimize_placements [⟨"Pt1", some "5E", "545"⟩] (fun t => if t = 10 then 4 else 0)
        [5]).assignments.map (fun a => a.team) = [4]) ∧ (4 : Nat) ≠ 10 := by
  decide

/-- C2 (amended): no assignment produced by `optimize_placements` ever
targets a closed team — in particular, a `"5E"` patient with team 5
closed is never assigned to team 5 whatever the census; and on a
uniform (all-zero) census the patient does go to geographic team 10. -/
theorem closed_teams_receive_zero :
    (∀ (ps : List Patient) (c0 : Nat → Nat) (closed_teams : List Nat),
        ∀ a ∈ (optimize_placements ps c0 closed_teams).assignments, a.team ∉ closed_teams) ∧
      ((optimize_placements [⟨"Pt1", some "5E", "545"⟩] (fun _ => 0) [5]).assignments.map
          (fun a => a.team) = [10]) := by
  constructor
  · intro ps c0 closed_teams a ha
    simp only [optimize_placements, optimize_placementsAux] at ha
    have h := foldl_assignments_not_closed (fun t => closed_teams.contains t)
      (sortPatients ps) ⟨[], c0, fun _ => 0, []⟩
      (fun a ha' => absurd ha' (List.not_mem_nil a)) a ha
    simpa using h
  · decide

/-- Witness for C2 (amended): the assignment actually produced for the
`"5E"` patient with team 5 closed does not target team 5. -/
theorem closed_teams_receive_zero_witness :
    (⟨⟨"Pt1", some "5E", "545"⟩, 10, true, "Geographic (5E → Med 10)"⟩ : Assignment).team ∉
      ([5] : List Nat) :=
  closed_teams_receive_zero.1 [⟨"Pt1", some "5E", "545"⟩] (fun _ => 0) [5] _ (by decide)

/-- C3: completeness of `optimize_placements` — the patients of the
returned assignments together with the skipped patients are a
permutation of the input list (each input patient appears exactly once
across the two), and patients are skipped only on the
`WARNING: No open teams` path: as soon as any team is open, nothing is
skipped, so every input patient appears in exactly one assignment. -/
theorem allocation_completeness (ps : List Patient) (c0 : Nat → Nat) (closed_teams : List Nat) :
    ((optimize_placements ps c0 closed_teams).assignments.map (fun a => a.patient) ++
        (optimize_placements ps c0 closed_teams).skipped).Perm ps ∧
      ((∃ t, t ∈ ALL_TEAMS ∧ t ∉ closed_teams) →
        (optimize_placements ps c0 closed_teams).skipped = []) := by
  constructor
  · have hp := foldl_patients_perm (fun t => closed_teams.contains t) (sortPatients ps)
      ⟨[], c0, fun _ => 0, []⟩
    simp only [List.map_nil, List.append_nil, List.nil_append] at hp
    have hs : (sortPatients ps).Perm ps := by
      rw [sortPatients]
      exact List.perm_insertionSort _ ps
    simp only [optimize_placements, optimize_placementsAux]
    exact hp.trans hs
  · rintro ⟨t, hall, hnc⟩
    have hopen : openTeams (fun t => closed_teams.contains t) ≠ [] :=
      List.ne_nil_of_mem
        (List.mem_filter.mpr ⟨hall, by show (!closed_teams.contains _) = true; rw [contains_eq_false_of_not_mem hnc]; rfl⟩)
    simp only [optimize_placements, optimize_placementsAux]
    exact foldl_no_skip _ hopen (sortPatients ps) ⟨[], c0, fun _ => 0, []⟩

/-- Witness for C3: with no closed teams nothing is skipped (second
part of the claim applied at a concrete input). -/
theorem allocation_completeness_witness :
    (optimize_placements [⟨"Pt1", some "5E", "545"⟩] (fun _ => 0) []).skipped = [] :=
  (allocation_completeness [⟨"Pt1", some "5E", "545"⟩] (fun _ => 0) []).2
    ⟨1, by decide, by decide⟩

/-- C4: determinism of `optimize_placements`.  In this pure embedding
two calls on identical inputs are definitionally equal; the
substantive content — the result does not depend on how the unordered
closed-team set is presented, only on its membership — is proved here:
any two closed-team lists with the same members yield identical
results (same teams, same geographic flags, same rationale strings). -/
theorem allocator_deterministic (ps : List Patient) (c0 : Nat → Nat) (c1 c2 : List Nat)
    (h : ∀ t, t ∈ c1 ↔ t ∈ c2) :
    optimize_placements ps c0 c1 = optimize_placements ps c0 c2 := by
  have hf : (fun t => c1.contains t) = (fun t => c2.contains t) := by
    funext t
    by_cases h1 : t ∈ c1
    · rw [contains_eq_true_of_mem h1, contains_eq_true_of_mem ((h t).mp h1)]
    · rw [contains_eq_false_of_not_mem h1,
        contains_eq_false_of_not_mem (fun hm => h1 ((h t).mpr hm))]
  simp only [optimize_placements, hf]

/-- Witness for C4: two presentations of the closed set `{5}` give the
same result. -/
theorem allocator_deterministic_witness :
    optimize_placements [⟨"Pt1", some "5E", "545"⟩] (fun _ => 0) [5, 5] =
      optimize_placements [⟨"Pt1", some "5E", "545"⟩] (fun _ => 0) [5] :=
  allocator_deterministic _ _ _ _ (fun t => by simp)

/-! ## Claim theorems: C5, C6, C9, C10 -/

/-- C5: `normalize_floor` satisfies the spec's literal geography
cases: `"312A" → "3W"`, `"545B" → "5E"`, `"877" → "BOYER"`,
`"IMCU" → "IMCU"`, `"ED" → None`, and `"725" → "7?"` (room 25 falls in
the ambiguous 21-29 gap on floor 7). -/
theorem normalize_floor_literal_cases :
    normalize_floor "312A" = some "3W" ∧ normalize_floor "545B" = some "5E" ∧
      normalize_floor "877" = some "BOYER" ∧ normalize_floor "IMCU" = some "IMCU" ∧
      normalize_floor "ED" = none ∧ normalize_floor "725" = some "7?" := by
  decide

/-- C6 (code bug): feeding the already-canonical label `"5E"` back
through `normalize_floor` yields `None`, not `"5E"` — the bed-suffix
strip `re.sub(r'[A-Z]$', '', ...)` removes the direction letter before
the floor+direction pattern is tried, so every bare `<digit><E|W>`
label degrades to "no geographic preference".  This contradicts the
function's own docstring (which lists `"5E"`, `"7W"` as examples of
the explicit floor+direction pattern) and the interactive prompt that
advertises `'7W'` as a valid location format. -/
theorem normalize_floor_bare_label_bug :
    normalize_floor "5E" = none ∧ normalize_floor "7W" = none := by
  decide

/-- C9: redistribution no-op — when every existing patient's current
team is in the geographic team set of its floor, `analyze_patients`
(with its default empty closed set) returns an empty
needs-reassignment list and a correctly-placed list equal to the whole
input. -/
theorem analyze_noop (ps : List ExistingPatient)
    (h : ∀ p ∈ ps, p.current_team ∈ geoOfExisting p) :
    analyze_patients ps [] = ([], ps) := by
  induction ps with
  | nil => rfl
  | cons p ps ih =>
    have hp := h p (List.mem_cons_self p ps)
    have hrest := ih (fun q hq => h q (List.mem_cons_of_mem p hq))
    simp only [analyze_patients, hrest]
    rw [show (geoOfExisting p).filter (fun t => !([] : List Nat).contains t) =
        geoOfExisting p from by simp]
    rw [contains_eq_true_of_mem hp]
    simp

/-- Witness for C9 at a concrete roster: one patient on `3W` whose
current team 1 covers `3W`. -/
theorem analyze_noop_witness :
    analyze_patients [⟨"304A", 1, some "3W"⟩] [] = ([], [⟨"304A", 1, some "3W"⟩]) :=
  analyze_noop _ (by decide)

/-- C10: `analyze_patients` partitions its input — the needs-move
patients and the correctly-placed patients are each order-preserving
sublists of the input, and their concatenation is a permutation of the
input (every patient lands in exactly one of the two lists, none
dropped or duplicated). -/
theorem analyze_partition (ps : List ExistingPatient) (closed_teams : List Nat) :
    ((analyze_patients ps closed_teams).1.map Prod.fst).Sublist ps ∧
      ((analyze_patients ps closed_teams).2).Sublist ps ∧
      (((analyze_patients ps closed_teams).1.map Prod.fst) ++
          (analyze_patients ps closed_teams).2).Perm ps := by
  induction ps with
  | nil => exact ⟨List.Sublist.refl _, List.Sublist.refl _, List.Perm.refl _⟩
  | cons p ps ih =>
    obtain ⟨ih1, ih2, ih3⟩ := ih
    simp only [analyze_patients]
    split
    · exact ⟨ih1.cons p, ih2.cons₂ p,
        List.perm_middle.trans (ih3.cons p)⟩
    · split
      · exact ⟨by simpa using ih1.cons₂ p, ih2.cons p, by simpa using ih3.cons p⟩
      · exact ⟨by simpa using ih1.cons₂ p, ih2.cons p, by simpa using ih3.cons p⟩

/-! ## Order lemmas for the lexicographic comparisons -/

theorem eq_false_of_not_true {b : Bool} (h : ¬b = true) : b = false := by
  cases b
  · rfl
  · exact absurd rfl h

theorem lexLT_irrefl : ∀ a : List Char, lexLT a a = false
  | [] => rfl
  | c :: cs => by simp [lexLT, lt_irrefl, lexLT_irrefl cs]

theorem lexLT_trans : ∀ a b c : List Char,
    lexLT a b = true → lexLT b c = true → lexLT a c = true := by
  intro a
  induction a with
  | nil =>
    intro b c hab hbc
    cases b with
    | nil => simp [lexLT] at hab
    | cons y ys =>
      cases c with
      | nil => simp [lexLT] at hbc
      | cons z zs => simp [lexLT]
  | cons x xs ih =>
    intro b c hab hbc
    cases b with
    | nil => simp [lexLT] at hab
    | cons y ys =>
      cases c with
      | nil => simp [lexLT] at hbc
      | cons z zs =>
        simp only [lexLT] at hab hbc ⊢
        by_cases hxy : x < y
        · by_cases hyz : y < z
          · simp [lt_trans hxy hyz]
          · by_cases hzy : z < y
            · simp [hyz, hzy] at hbc
            · have hyzeq : y = z := le_antisymm (le_of_not_lt hzy) (le_of_not_lt hyz)
              subst hyzeq
              simp [hxy]
        · by_cases hyx : y < x
          · simp [hxy, hyx] at hab
          · have hxyeq : x = y := le_antisymm (le_of_not_lt hyx) (le_of_not_lt hxy)
            subst hxyeq
            simp only [lt_irrefl, if_false] at hab
            by_cases hxz : x < z
            · simp [hxz]
            · by_cases hzx : z < x
              · simp [hxz, hzx] at hbc
              · have hxzeq : x = z := le_antisymm (le_of_not_lt hzx) (le_of_not_lt hxz)
                subst hxzeq
                simp only [lt_irrefl, if_false] at hbc ⊢
                exact ih ys zs hab hbc

theorem lexLT_trichotomy (a : List Char) : ∀ b : List Char,
    lexLT a b = true ∨ a = b ∨ lexLT b a = true := by
  induction a with
  | nil =>
    intro b
    cases b with
    | nil => exact Or.inr (Or.inl rfl)
    | cons y ys => exact Or.inl (by simp [lexLT])
  | cons x xs ih =>
    intro b
    cases b with
    | nil => exact Or.inr (Or.inr (by simp [lexLT]))
    | cons y ys =>
      rcases lt_trichotomy x y with h | h | h
      · exact Or.inl (by simp [lexLT, h])
      · subst h
        rcases ih ys with h' | h' | h'
        · exact Or.inl (by simp [lexLT, lt_irrefl, h'])
        · exact Or.inr (Or.inl (by rw [h']))
        · exact Or.inr (Or.inr (by simp [lexLT, lt_irrefl, h']))
      · exact Or.inr (Or.inr (by simp [lexLT, h]))

theorem lexLT_eq_of_both_false {a b : List Char}
    (h1 : lexLT a b = false) (h2 : lexLT b a = false) : a = b := by
  rcases lexLT_trichotomy a b with h | h | h
  · rw [h] at h1; cases h1
  · exact h
  · rw [h] at h2; cases h2

theorem lexLT_false_trans {a b c : List Char}
    (h1 : lexLT b a = false) (h2 : lexLT c b = false) : lexLT c a = false := by
  by_cases hca : lexLT c a = true
  · rcases lexLT_trichotomy a b with h | h | h
    · have := lexLT_trans c a b hca h
      rw [this] at h2; cases h2
    · subst h
      rw [hca] at h2; cases h2
    · rw [h] at h1; cases h1
  · exact eq_false_of_not_true hca

theorem strPairLE_total (a b : List Char × List Char) :
    strPairLE a b = true ∨ strPairLE b a = true := by
  obtain ⟨f1, i1⟩ := a
  obtain ⟨f2, i2⟩ := b
  simp only [strPairLE]
  by_cases a12 : lexLT f1 f2 = true
  · exact Or.inl (by simp [a12])
  · by_cases a21 : lexLT f2 f1 = true
    · exact Or.inr (by simp [a21])
    · have e : f1 = f2 :=
        lexLT_eq_of_both_false (eq_false_of_not_true a12) (eq_false_of_not_true a21)
      subst e
      simp only [lexLT_irrefl, Bool.false_eq_true, if_false, Bool.not_eq_true']
      by_cases h : lexLT i2 i1 = true
      · refine Or.inr ?_
        by_cases h' : lexLT i1 i2 = true
        · have := lexLT_trans i1 i2 i1 h' h
          rw [lexLT_irrefl] at this
          cases this
        · exact eq_false_of_not_true h'
      · exact Or.inl (eq_false_of_not_true h)

theorem strPairLE_trans {a b c : List Char × List Char}
    (h1 : strPairLE a b = true) (h2 : strPairLE b c = true) : strPairLE a c = true := by
  obtain ⟨f1, i1⟩ := a
  obtain ⟨f2, i2⟩ := b
  obtain ⟨f3, i3⟩ := c
  simp only [strPairLE] at h1 h2 ⊢
  by_cases a12 : lexLT f1 f2 = true
  · by_cases a23 : lexLT f2 f3 = true
    · simp [lexLT_trans _ _ _ a12 a23]
    · by_cases a32 : lexLT f3 f2 = true
      · simp [a23, a32] at h2
      · have e23 : f2 = f3 :=
          lexLT_eq_of_both_false (eq_false_of_not_true a23) (eq_false_of_not_true a32)
        subst e23
        simp [a12]
  · by_cases a21 : lexLT f2 f1 = true
    · simp [a12, a21] at h1
    · have e12 : f1 = f2 :=
        lexLT_eq_of_both_false (eq_false_of_not_true a12) (eq_false_of_not_true a21)
      subst e12
      by_cases a13 : lexLT f1 f3 = true
      · simp [a13]
      · by_cases a31 : lexLT f3 f1 = true
        · simp [a13, a31] at h2
        · have e13 : f1 = f3 :=
            lexLT_eq_of_both_false (eq_false_of_not_true a13) (eq_false_of_not_true a31)
          subst e13
          simp only [lexLT_irrefl, Bool.false_eq_true, if_false, Bool.not_eq_true'] at h1 h2 ⊢
          exact lexLT_false_trans h1 h2

theorem prioLE_total (a b : Nat × String × String) :
    prioLE a b = true ∨ prioLE b a = true := by
  obtain ⟨n1, f1, i1⟩ := a
  obtain ⟨n2, f2, i2⟩ := b
  simp only [prioLE]
  rcases Nat.lt_trichotomy n1 n2 with h | h | h
  · exact Or.inl (by simp [h])
  · subst h
    simp only [lt_irrefl, if_false]
    exact strPairLE_total _ _
  · exact Or.inr (by simp [h])

theorem prioLE_trans {a b c : Nat × String × String}
    (h1 : prioLE a b = true) (h2 : prioLE b c = true) : prioLE a c = true := by
  obtain ⟨n1, f1, i1⟩ := a
  obtain ⟨n2, f2, i2⟩ := b
  obtain ⟨n3, f3, i3⟩ := c
  simp only [prioLE] at h1 h2 ⊢
  by_cases h12 : n1 < n2
  · by_cases h23 : n2 < n3
    · simp [lt_trans h12 h23]
    · by_cases h32 : n3 < n2
      · simp [h23, h32] at h2
      · have e : n2 = n3 := le_antisymm (le_of_not_lt h32) (le_of_not_lt h23)
        subst e
        simp [h12]
  · by_cases h21 : n2 < n1
    · simp [h12, h21] at h1
    · have e : n1 = n2 := le_antisymm (le_of_not_lt h21) (le_of_not_lt h12)
      subst e
      simp only [lt_irrefl, if_false] at h1
      by_cases h13 : n1 < n3
      · simp [h13]
      · by_cases h31 : n3 < n1
        · simp [h13, h31] at h2
        · have e' : n1 = n3 := le_antisymm (le_of_not_lt h31) (le_of_not_lt h13)
          subst e'
          simp only [lt_irrefl, if_false] at h2 ⊢
          exact strPairLE_trans h1 h2

/-! ## Claim theorems: C7, C8 -/

/-- C7: when valid geographically-eligible candidates remain after the
capacity and equity filters (`bg` is the least-census one) and an open
non-IMCU regular team exists (`lc` the least-census one), the
allocator prefers the less-loaded team over geography exactly when the
best geographic team's census would exceed the least-loaded team's by
more than `MAX_CENSUS_GAP` = 4; otherwise the best geographic team is
chosen.  (The extra `lowest_census_team not in valid_geo_teams`
conjunct in the code is redundant: `bg` minimizes census over the
valid candidates, so when the gap condition holds `lc` cannot be one
of them.) -/
theorem balance_override_gap (closed : Nat → Bool) (census newAsg : Nat → Nat) (p : Patient)
    (bg lc : Nat)
    (hbg : minBy census (validGeoTeams closed census newAsg p) = some bg)
    (hlc : minBy census (nonImcuRegular closed) = some lc) :
    chooseTeam closed census newAsg p =
      if census bg + 1 > census lc + MAX_CENSUS_GAP then
        some (lc, false, balanceOverrideReason (floorStr p) bg (census bg) lc (census lc))
      else some (bg, true, geoReason (floorStr p) bg) := by
  have hvne : validGeoTeams closed census newAsg p ≠ [] := by
    intro hnil
    rw [hnil] at hbg
    simp [minBy] at hbg
  have hgne : (geoTeamsOf closed p).isEmpty = false := by
    have hg : geoTeamsOf closed p ≠ [] := by
      intro hnil
      exact hvne (by simp [validGeoTeams, hnil])
    simpa [List.isEmpty_iff] using hg
  have hM : MAX_CENSUS_GAP = 4 := rfl
  by_cases hgap : census bg ≥ census lc + MAX_CENSUS_GAP
  · have hnotmem : lc ∉ validGeoTeams closed census newAsg p := by
      intro hmem
      have hle := minBy_le hbg lc hmem
      omega
    have hgeo : geoPhase closed census newAsg p =
        some (lc, false, balanceOverrideReason (floorStr p) bg (census bg) lc (census lc)) := by
      simp [geoPhase, hgne, hbg, hlc, hnotmem, hgap]
    rw [if_pos (by omega : census bg + 1 > census lc + MAX_CENSUS_GAP)]
    simp [chooseTeam, hgeo]
  · have hgeo : geoPhase closed census newAsg p = some (bg, true, geoReason (floorStr p) bg) := by
      simp [geoPhase, hgne, hbg, hlc, hgap]
    rw [if_neg (by omega : ¬census bg + 1 > census lc + MAX_CENSUS_GAP)]
    simp [chooseTeam, hgeo]

/-- Witness for C7: a `"5E"` patient on an all-open, all-zero census;
the valid candidates are teams 5 and 10 with best `bg = 5`, the
least-loaded non-IMCU regular team is 4, the gap condition fails, and
the geographic team 5 is chosen. -/
theorem balance_override_gap_witness :
    chooseTeam (fun _ => false) (fun _ => 0) (fun _ => 0) ⟨"Pt1", some "5E", "545"⟩ =
      if (0 : Nat) + 1 > 0 + MAX_CENSUS_GAP then
        some (4, false, balanceOverrideReason "5E" 5 0 4 0)
      else some (5, true, geoReason "5E" 5) :=
  balance_override_gap (fun _ => false) (fun _ => 0) (fun _ => 0) ⟨"Pt1", some "5E", "545"⟩
    5 4 (by decide) (by decide)

/-- C8 (counterexample): the allocator of `src/geo_placer.py` (the
claim's cited line 233) does not process patients in the claimed
banded priority order.  It sorts by `(floor or 'ZZZ', identifier)`, so
a no-floor outlier (key `'ZZZ'`) is processed after every geographic
patient: with an ED outlier `Pt1` and a `"5E"` patient `Pt2`, the
output order (equal to processing order) is `Pt2`, `Pt1`, while the
claimed bands (outlier band 1 < geographic band 2) require `Pt1`
first. -/
theorem priority_order_counterexample :
    ((optimize_placements [⟨"Pt1", none, "ED"⟩, ⟨"Pt2", some "5E", "545"⟩] (fun _ => 0)
        []).assignments.map (fun a => a.patient.identifier) = ["Pt2", "Pt1"]) ∧
      claimBand ⟨"Pt1", none, "ED"⟩ < claimBand ⟨"Pt2", some "5E", "545"⟩ := by
  decide

/-- C8 (amended): the banded priority order the claim describes is the
one implemented by `get_patient_priority` in `src/code/geo_placer.py`
(not by the `src/geo_placer.py` sort): the first component of every
patient's priority key equals the claim's band (3W/IMCU first,
undeterminable floors second, other geographic floors last), ties
within a band breaking by floor label then identifier; and the patient
list that allocator iterates over is sorted by exactly this
lexicographic key order. -/
theorem priority_order_code_variant :
    (∀ p : Patient, (get_patient_priority p).1 = claimBand p) ∧
      (∀ ps : List Patient,
        List.Sorted
          (fun p q => prioLE (get_patient_priority p) (get_patient_priority q) = true)
          (sortPatientsByPriority ps)) := by
  constructor
  · intro p
    rcases hf : p.floor with _ | f
    · simp [get_patient_priority, claimBand, hf]
    · by_cases h3 : f = "3W"
      · subst h3
        simp [get_patient_priority, claimBand, hf,
          show get_geographic_teams (some "3W") = [1, 2, 3] from rfl]
      · by_cases hI : f = "IMCU"
        · subst hI
          simp [get_patient_priority, claimBand, hf,
            show get_geographic_teams (some "IMCU") = [1, 2, 3] from rfl]
        · by_cases he : f = ""
          · subst he
            simp [get_patient_priority, claimBand, hf, h3, hI]
          · by_cases hgeo : (get_geographic_teams (some f)).isEmpty
            · simp [get_patient_priority, claimBand, hf, h3, hI, he, hgeo]
            · simp [get_patient_priority, claimBand, hf, h3, hI, he, hgeo]
  · intro ps
    haveI : IsTotal Patient
        (fun p q => prioLE (get_patient_priority p) (get_patient_priority q) = true) :=
      ⟨fun p q => prioLE_total _ _⟩
    haveI : IsTrans Patient
        (fun p q => prioLE (get_patient_priority p) (get_patient_priority q) = true) :=
      ⟨fun _ _ _ => prioLE_trans⟩
    rw [sortPatientsByPriority]
    exact List.sorted_insertionSort _ ps

example : normalize_floor "5E-512" = some "5E" := by decide
example : get_geographic_teams (some "5E") = [5, 10] := by decide
example : get_geographic_teams (some "7?") = [7, 9] := by decide

end GeoOwl
